import Mathlib

/-!
# Egg timer: the countdown animation of `main.go`

A shallow embedding of the `animation` type of `main.go` (its methods `animate`,
`stop`, `progress`) and of the button-click step at the head of the frame handler in
`draw`, followed by the properties of the countdown established on that embedding.

Modelling conventions

* `time.Time` is an instant counted in nanoseconds, an `Int`.  The wall-clock range of
  `time.Time` (an `int64` number of *seconds*) is not reached by any input considered
  here, so `Time.Add` is plain addition; `Time.Sub` saturates at the `int64` bounds as
  in the Go library.
* `time.Duration` is an `int64` number of nanoseconds: an `Int` together with the range
  predicate `isInt64`; arithmetic that can overflow wraps explicitly (`wrapInt64`).
* `float32`/`float64` values are `FloatVal`: a rational number, an infinity or NaN.
  Conversions to `float32` and the `float32` division round to nearest, ties to even,
  on the binary32 grid (`toFloat32`).  The sign of a zero is not tracked; it is not
  observable in this program, whose only divisor is a converted integer.
-/

namespace EggTimer

/-! ## Machine integers and time -/

/-- Smallest `int64`. -/
def minInt64 : Int := -9223372036854775808

/-- Largest `int64`. -/
def maxInt64 : Int := 9223372036854775807

/-- Range predicate of `int64`. -/
def isInt64 (x : Int) : Prop := minInt64 ≤ x ∧ x ≤ maxInt64

instance (x : Int) : Decidable (isInt64 x) := by
  unfold isInt64; exact inferInstance

/-- Two's-complement wrap-around of an integer into the `int64` range. -/
def wrapInt64 (x : Int) : Int :=
  (x + 9223372036854775808) % 18446744073709551616 - 9223372036854775808

/-- The constant `time.Second`, in nanoseconds. -/
def Second : Int := 1000000000

/-- The method `time.Time.Add`. -/
def Time.Add (t d : Int) : Int := t + d

/-- The method `time.Time.After`: strictly later. -/
def Time.After (t u : Int) : Bool := decide (u < t)

/-- The method `time.Time.Sub`: the difference, saturated to the range of `time.Duration`. -/
def Time.Sub (t u : Int) : Int :=
  if maxInt64 < t - u then maxInt64
  else if t - u < minInt64 then minInt64
  else t - u

/-! ## Floating point -/

/-- Value of a Go floating-point number: finite, infinite (`neg` for minus infinity) or NaN. -/
inductive FloatVal where
  | fin (q : ℚ)
  | inf (neg : Bool)
  | nan
  deriving DecidableEq

/-- Round to the nearest integer, ties to the even one. -/
def roundHalfEven (t : ℚ) : ℤ :=
  if t - ⌊t⌋ < 1 / 2 then ⌊t⌋
  else if 1 / 2 < t - ⌊t⌋ then ⌊t⌋ + 1
  else if ⌊t⌋ % 2 = 0 then ⌊t⌋
  else ⌊t⌋ + 1

/-- Spacing of the binary32 grid around `q`: 24 significant bits, and the fixed spacing
`2 ^ (-149)` below the smallest normal number `2 ^ (-126)`. -/
def ulp32 (q : ℚ) : ℚ := 2 ^ (max (Int.log 2 |q|) (-126) - 23)

/-- Round a rational to the binary32 grid (exponent unbounded above). -/
def roundToGrid32 (q : ℚ) : ℚ := roundHalfEven (q / ulp32 q) * ulp32 q

/-- Rounding of an exact value to `float32`: round to nearest, ties to even, overflowing
to an infinity from `2 ^ 128` on. -/
def toFloat32 (q : ℚ) : FloatVal :=
  if 2 ^ 128 ≤ |roundToGrid32 q| then .inf (decide (q < 0)) else .fin (roundToGrid32 q)

/-- The conversion `float32(i)` of an `int64`. -/
def FloatVal.ofInt64 (i : Int) : FloatVal := toFloat32 (i : ℚ)

/-- The `float32` division `x / y`. -/
def FloatVal.div : FloatVal → FloatVal → FloatVal
  | .fin a, .fin b =>
    if b = 0 then (if a = 0 then .nan else .inf (decide (a < 0))) else toFloat32 (a / b)
  | .fin _, .inf _ => .fin 0
  | .inf s, .fin b => .inf (xor s (decide (b < 0)))
  | .inf _, .inf _ => .nan
  | .nan, _ => .nan
  | _, .nan => .nan

/-- The float lies in the closed interval from 0 to 1 (false for NaN and the infinities). -/
def FloatVal.inUnit : FloatVal → Prop
  | .fin q => 0 ≤ q ∧ q ≤ 1
  | _ => False

instance (f : FloatVal) : Decidable f.inUnit := by
  cases f <;> unfold FloatVal.inUnit <;> exact inferInstance

/-! ## The animation -/

/-- The redraw request `op.InvalidateOp{At: t}`; `none` is the zero time: redraw at once. -/
structure InvalidateOp where
  At : Option Int
  deriving DecidableEq

/-- The fields of `layout.Context` the animation uses: the frame time and the
operation list the frame appends to. -/
structure Context where
  Now : Int
  Ops : List InvalidateOp

/-- The type `animation`. -/
structure animation where
  start : Int
  duration : Int
  deriving DecidableEq

/-- The method `animate`: start at the current frame, for the given duration, and
request a redraw. -/
def animation.animate (_a : animation) (gtx : Context) (duration : Int) :
    animation × List InvalidateOp :=
  ({ start := gtx.Now, duration := duration }, gtx.Ops ++ [⟨none⟩])

/-- The method `stop`. -/
def animation.stop (a : animation) : animation :=
  { a with duration := 0 }

/-- The method `progress`: the pair `(animating, progress)` it returns, and the
operation list after the call. -/
def animation.progress (a : animation) (gtx : Context) :
    (Bool × FloatVal) × List InvalidateOp :=
  if Time.After gtx.Now (Time.Add a.start a.duration) then
    ((false, .fin 0), gtx.Ops)
  else
    ((true, FloatVal.div (FloatVal.ofInt64 (Time.Sub gtx.Now a.start))
        (FloatVal.ofInt64 a.duration)),
      gtx.Ops ++ [⟨none⟩])

/-! ## The click step of `draw` -/

/-- The conversion `time.Duration(f)` of a `float64` to `int64`: truncation toward zero.
When the truncated value is not an `int64` (or `f` is not finite) Go leaves the result
to the implementation; `impl` is that result. -/
def truncToInt64 (impl : Int) : FloatVal → Int
  | .fin q =>
    if isInt64 (q.num.tdiv q.den) then q.num.tdiv q.den else wrapInt64 impl
  | _ => wrapInt64 impl

/-- The expression `time.Duration(inputFloat)*time.Second`, an `int64` product. -/
def requestedDuration (impl : Int) (inputFloat : FloatVal) : Int :=
  wrapInt64 (truncToInt64 impl inputFloat * Second)

/-- Outcome of `strconv.ParseFloat(s, 32)`, a standard-library function: a parsed
value, a syntax error, or a range error (with the sign of the text). -/
inductive ParseOutcome where
  | ok (f : FloatVal)
  | errSyntax
  | errRange (neg : Bool)

/-- First result of `strconv.ParseFloat`, the only one `draw` keeps: the parsed value,
`0` after a syntax error, an infinity after a range error. -/
def ParseOutcome.value : ParseOutcome → FloatVal
  | .ok f => f
  | .errSyntax => .fin 0
  | .errRange neg => .inf neg

/-- What one `system.FrameEvent` brings to the click step: the frame time, whether the
button was clicked, and the outcome of parsing the trimmed text of the input box. -/
structure FrameEvent where
  Now : Int
  clicked : Bool
  parsed : ParseOutcome

/-- Result of the click step: the animation afterwards, the values `boiling` and
`progress` the rest of the frame draws with, and the operation list. -/
structure FrameState where
  anim : animation
  boiling : Bool
  progress : FloatVal
  ops : List InvalidateOp

/-- The head of the `system.FrameEvent` case of `draw`: a fresh context, the progress
query, and the start/stop toggle on a click. -/
def drawFrame (impl : Int) (anim : animation) (ev : FrameEvent) : FrameState :=
  let gtx : Context := { Now := ev.Now, Ops := [] }
  let r := anim.progress gtx
  let gtx : Context := { gtx with Ops := r.2 }
  if ev.clicked then
    if r.1.1 then
      { anim := anim.stop, boiling := r.1.1, progress := r.1.2, ops := gtx.Ops }
    else
      let s := anim.animate gtx (requestedDuration impl ev.parsed.value)
      { anim := s.1, boiling := r.1.1, progress := r.1.2, ops := s.2 }
  else
    { anim := anim, boiling := r.1.1, progress := r.1.2, ops := gtx.Ops }


/-- The comparison `x < 1` on `float32` values; false for NaN. -/
def FloatVal.ltOne : FloatVal → Bool
  | .fin q => decide (q < 1)
  | .inf neg => neg
  | .nan => false

/-- The comparison `x >= 1` on `float32` values; false for NaN. -/
def FloatVal.geOne : FloatVal → Bool
  | .fin q => decide (1 ≤ q)
  | .inf neg => !neg
  | .nan => false

/-- The label `draw` gives the button from the `boiling` and `progress` of the frame. -/
def buttonText (boiling : Bool) (progress : FloatVal) : String :=
  let text := ""
  let text := if !boiling then "Start" else text
  let text := if boiling && progress.ltOne then "Stop" else text
  let text := if boiling && progress.geOne then "Finished" else text
  text

/-- Truncation of a rational toward zero, stated with floor and ceiling: the
mathematical `trunc` against which the conversion `time.Duration(f)` is compared. -/
def specTrunc (x : ℚ) : ℤ := if 0 ≤ x then ⌊x⌋ else ⌈x⌉

/-! ## Rounding lemmas -/

theorem roundHalfEven_intCast (z : ℤ) : roundHalfEven (z : ℚ) = z := by
  simp [roundHalfEven]

theorem roundHalfEven_mono {s t : ℚ} (h : s ≤ t) : roundHalfEven s ≤ roundHalfEven t := by
  have hfg : ⌊s⌋ ≤ ⌊t⌋ := Int.floor_mono h
  rcases lt_or_eq_of_le hfg with hlt | heq
  · have h1 : roundHalfEven s ≤ ⌊s⌋ + 1 := by
      unfold roundHalfEven; split_ifs <;> omega
    have h2 : ⌊t⌋ ≤ roundHalfEven t := by
      unfold roundHalfEven; split_ifs <;> omega
    omega
  · unfold roundHalfEven
    rw [← heq]
    split_ifs <;> first | omega | (exfalso; linarith)

theorem roundHalfEven_err (t : ℚ) : |(roundHalfEven t : ℚ) - t| ≤ 1 / 2 := by
  have h1 := Int.floor_le t
  have h2 := Int.lt_floor_add_one t
  unfold roundHalfEven
  rw [abs_le]
  split_ifs <;> push_cast <;> constructor <;> linarith


theorem ulp32_pos (q : ℚ) : 0 < ulp32 q := zpow_pos two_pos _

theorem log2_lt_of_lt_zpow {q : ℚ} {n : ℤ} (hq : 0 < q) (h : q < 2 ^ n) : Int.log 2 q < n :=
  (Int.lt_zpow_iff_log_lt (by norm_num) hq).1 (by simpa using h)

theorem le_log2_of_zpow_le {q : ℚ} {n : ℤ} (hq : 0 < q) (h : 2 ^ n ≤ q) : n ≤ Int.log 2 q :=
  (Int.zpow_le_iff_le_log (by norm_num) hq).1 (by simpa using h)

theorem zpow_log2_le {q : ℚ} (hq : 0 < q) : (2 : ℚ) ^ Int.log 2 q ≤ q := by
  simpa using Int.zpow_log_le_self (b := 2) (by norm_num) hq

theorem lt_zpow_log2_succ (q : ℚ) : q < (2 : ℚ) ^ (Int.log 2 q + 1) := by
  simpa using Int.lt_zpow_succ_log_self (b := 2) (by norm_num) q

theorem log2_eq_of_bounds {q : ℚ} {e : ℤ} (h1 : 2 ^ e ≤ q) (h2 : q < 2 ^ (e + 1)) :
    Int.log 2 q = e := by
  have hq : 0 < q := lt_of_lt_of_le (zpow_pos two_pos e) h1
  have a := le_log2_of_zpow_le hq h1
  have b := log2_lt_of_lt_zpow hq h2
  omega

theorem roundToGrid32_exact (m k : ℤ) (hm : |m| < 2 ^ 24) (hk : -149 ≤ k) :
    roundToGrid32 ((m : ℚ) * 2 ^ k) = (m : ℚ) * 2 ^ k := by
  by_cases hm0 : m = 0
  · subst hm0; simp [roundToGrid32, roundHalfEven]
  · have hq : 0 < |(m : ℚ) * 2 ^ k| :=
      abs_pos.2 (mul_ne_zero (by exact_mod_cast hm0) (zpow_ne_zero _ two_ne_zero))
    have hlt : |(m : ℚ) * 2 ^ k| < 2 ^ (24 + k) := by
      rw [abs_mul, abs_of_pos (zpow_pos two_pos k : (0 : ℚ) < 2 ^ k), zpow_add₀ two_ne_zero]
      have : |(m : ℚ)| < 2 ^ (24 : ℤ) := by
        rw [← Int.cast_abs]; exact_mod_cast hm
      exact mul_lt_mul_of_pos_right this (zpow_pos two_pos k)
    have hlog := log2_lt_of_lt_zpow hq hlt
    unfold roundToGrid32 ulp32
    generalize Int.log 2 |(m : ℚ) * 2 ^ k| = l at hlog ⊢
    obtain ⟨n, hn⟩ : ∃ n : ℕ, k = (max l (-126) - 23) + n :=
      ⟨(k - (max l (-126) - 23)).toNat, by omega⟩
    generalize max l (-126) - 23 = j at hn ⊢
    have hk2 : (2 : ℚ) ^ k = 2 ^ j * 2 ^ n := by
      rw [hn, zpow_add₀ two_ne_zero, zpow_natCast]
    have hj : (2 : ℚ) ^ j ≠ 0 := zpow_ne_zero _ two_ne_zero
    have hdiv : (m : ℚ) * 2 ^ k / 2 ^ j = ((m * 2 ^ n : ℤ) : ℚ) := by
      rw [hk2]; push_cast; field_simp; ring
    rw [hdiv, roundHalfEven_intCast, hk2]; push_cast; ring

theorem roundToGrid32_nonneg {x : ℚ} (hx : 0 ≤ x) : 0 ≤ roundToGrid32 x := by
  unfold roundToGrid32
  have h0 : roundHalfEven 0 ≤ roundHalfEven (x / ulp32 x) :=
    roundHalfEven_mono (div_nonneg hx (ulp32_pos x).le)
  rw [show roundHalfEven 0 = 0 from by simpa using roundHalfEven_intCast 0] at h0
  exact mul_nonneg (by exact_mod_cast h0) (ulp32_pos x).le

/-- A positive value in the normal range rounds to at least the power of two below it. -/
theorem zpow_log_le_roundToGrid32 {x : ℚ} (hx : 0 < x) (hE : -126 ≤ Int.log 2 x) :
    (2 : ℚ) ^ Int.log 2 x ≤ roundToGrid32 x := by
  unfold roundToGrid32 ulp32
  rw [abs_of_pos hx, max_eq_left hE]
  set e := Int.log 2 x
  have hu : (0 : ℚ) < 2 ^ (e - 23) := zpow_pos two_pos _
  have h1 : ((2 ^ 23 : ℤ) : ℚ) ≤ x / 2 ^ (e - 23) := by
    rw [le_div_iff₀ hu]
    have : ((2 ^ 23 : ℤ) : ℚ) * 2 ^ (e - 23) = 2 ^ e := by
      rw [zpow_sub₀ two_ne_zero]; norm_num; ring
    rw [this]; exact zpow_log2_le hx
  have h2 := roundHalfEven_mono h1
  rw [roundHalfEven_intCast] at h2
  have h3 : ((2 ^ 23 : ℤ) : ℚ) ≤ (roundHalfEven (x / 2 ^ (e - 23)) : ℚ) := by exact_mod_cast h2
  calc (2 : ℚ) ^ e = ((2 ^ 23 : ℤ) : ℚ) * 2 ^ (e - 23) := by
        rw [zpow_sub₀ two_ne_zero]; norm_num; ring
    _ ≤ _ := mul_le_mul_of_nonneg_right h3 hu.le

/-- A positive value rounds to at most the next power of two of its binade. -/
theorem roundToGrid32_le_zpow {x : ℚ} (hx : 0 < x) :
    roundToGrid32 x ≤ (2 : ℚ) ^ (max (Int.log 2 x) (-126) + 1) := by
  unfold roundToGrid32 ulp32
  rw [abs_of_pos hx]
  set e := max (Int.log 2 x) (-126)
  have hu : (0 : ℚ) < 2 ^ (e - 23) := zpow_pos two_pos _
  have hpow : ((2 ^ 24 : ℤ) : ℚ) * 2 ^ (e - 23) = 2 ^ (e + 1) := by
    rw [zpow_sub₀ two_ne_zero, zpow_add₀ two_ne_zero]; norm_num; ring
  have hx2 : x ≤ 2 ^ (e + 1) :=
    (lt_zpow_log2_succ x).le.trans
      (zpow_le_zpow_right₀ (by norm_num) (by have := le_max_left (Int.log 2 x) (-126); omega))
  have h1 : x / 2 ^ (e - 23) ≤ ((2 ^ 24 : ℤ) : ℚ) := by
    rw [div_le_iff₀ hu, hpow]; exact hx2
  have h2 := roundHalfEven_mono h1
  rw [roundHalfEven_intCast] at h2
  have h3 : (roundHalfEven (x / 2 ^ (e - 23)) : ℚ) ≤ ((2 ^ 24 : ℤ) : ℚ) := by exact_mod_cast h2
  calc _ ≤ ((2 ^ 24 : ℤ) : ℚ) * 2 ^ (e - 23) := mul_le_mul_of_nonneg_right h3 hu.le
    _ = _ := hpow

/-- Rounding to the binary32 grid is monotone on the non-negative rationals. -/
theorem roundToGrid32_mono {x y : ℚ} (hx : 0 ≤ x) (hxy : x ≤ y) :
    roundToGrid32 x ≤ roundToGrid32 y := by
  rcases eq_or_lt_of_le hx with h0 | hpos
  · subst h0
    have : roundToGrid32 0 = 0 := by simp [roundToGrid32, roundHalfEven]
    rw [this]; exact roundToGrid32_nonneg hxy
  · have hy : 0 < y := lt_of_lt_of_le hpos hxy
    have hlog : Int.log 2 x ≤ Int.log 2 y := Int.log_mono_right hpos hxy
    rcases lt_or_eq_of_le (max_le_max hlog (le_refl (-126 : ℤ))) with hlt | heq
    · have hEy : max (Int.log 2 y) (-126) = Int.log 2 y := by
        have := le_max_right (Int.log 2 x) (-126); omega
      have hE : -126 ≤ Int.log 2 y := by
        have := le_max_right (Int.log 2 y) (-126); omega
      calc roundToGrid32 x ≤ (2 : ℚ) ^ (max (Int.log 2 x) (-126) + 1) := roundToGrid32_le_zpow hpos
        _ ≤ (2 : ℚ) ^ Int.log 2 y := zpow_le_zpow_right₀ (by norm_num) (by omega)
        _ ≤ roundToGrid32 y := zpow_log_le_roundToGrid32 hy hE
    · unfold roundToGrid32 ulp32
      rw [abs_of_pos hpos, abs_of_pos hy, heq]
      have hu : (0 : ℚ) < 2 ^ (max (Int.log 2 y) (-126) - 23) := zpow_pos two_pos _
      have := roundHalfEven_mono (div_le_div_of_nonneg_right hxy hu.le)
      exact mul_le_mul_of_nonneg_right (by exact_mod_cast this) hu.le


theorem roundToGrid32_zero : roundToGrid32 0 = 0 := by
  simp [roundToGrid32, roundHalfEven]

theorem roundToGrid32_one : roundToGrid32 1 = 1 := by
  simpa using roundToGrid32_exact 1 0 (by norm_num) (by norm_num)

theorem roundToGrid32_two_pow_63 : roundToGrid32 9223372036854775808 = 9223372036854775808 := by
  have h := roundToGrid32_exact 1 63 (by norm_num) (by norm_num)
  norm_num at h
  exact h

/-- Evaluation of the rounding once the binade of the argument is known. -/
theorem roundToGrid32_eq {q : ℚ} (e : ℤ) (h1 : 2 ^ e ≤ |q|) (h2 : |q| < 2 ^ (e + 1))
    (he : -126 ≤ e) :
    roundToGrid32 q = roundHalfEven (q / 2 ^ (e - 23)) * 2 ^ (e - 23) := by
  unfold roundToGrid32 ulp32
  rw [log2_eq_of_bounds h1 h2, max_eq_left he]

/-- In the normal range the rounding error is at most `2 ^ (-24)` times the value. -/
theorem roundToGrid32_rel_err {x : ℚ} (hx : 0 < x) (hE : -126 ≤ Int.log 2 x) :
    |roundToGrid32 x - x| ≤ x * (1 / 2 ^ 24) := by
  unfold roundToGrid32 ulp32
  rw [abs_of_pos hx, max_eq_left hE]
  set e := Int.log 2 x
  have hu : (0 : ℚ) < 2 ^ (e - 23) := zpow_pos two_pos _
  have herr := roundHalfEven_err (x / 2 ^ (e - 23))
  have hpow : (2 : ℚ) ^ (e - 23) * (1 / 2) = 2 ^ e * (1 / 2 ^ 24) := by
    rw [zpow_sub₀ two_ne_zero]; norm_num; ring
  have hxe : (2 : ℚ) ^ e ≤ x := zpow_log2_le hx
  have heq : (roundHalfEven (x / 2 ^ (e - 23)) : ℚ) * 2 ^ (e - 23) - x
      = ((roundHalfEven (x / 2 ^ (e - 23)) : ℚ) - x / 2 ^ (e - 23)) * 2 ^ (e - 23) := by
    field_simp
  rw [heq, abs_mul, abs_of_pos hu]
  calc _ ≤ 1 / 2 * (2 : ℚ) ^ (e - 23) := mul_le_mul_of_nonneg_right herr hu.le
    _ = 2 ^ e * (1 / 2 ^ 24) := by rw [← hpow]; ring
    _ ≤ x * (1 / 2 ^ 24) := mul_le_mul_of_nonneg_right hxe (by norm_num)

theorem toFloat32_zero : toFloat32 0 = .fin 0 := by
  simp [toFloat32, roundToGrid32_zero]

/-- A non-negative value up to `2 ^ 63` converts to a finite `float32`. -/
theorem toFloat32_of_le {q : ℚ} (h0 : 0 ≤ q) (h1 : q ≤ 9223372036854775808) :
    toFloat32 q = .fin (roundToGrid32 q) := by
  have hr0 := roundToGrid32_nonneg h0
  have hr1 := roundToGrid32_mono h0 h1
  rw [roundToGrid32_two_pow_63] at hr1
  unfold toFloat32
  rw [abs_of_nonneg hr0, if_neg]
  have : (9223372036854775808 : ℚ) < 2 ^ 128 := by norm_num
  linarith

theorem ofInt64_of_nonneg {i : ℤ} (h0 : 0 ≤ i) (h1 : i ≤ maxInt64) :
    FloatVal.ofInt64 i = .fin (roundToGrid32 (i : ℚ)) := by
  unfold FloatVal.ofInt64
  apply toFloat32_of_le (by exact_mod_cast h0)
  unfold maxInt64 at h1
  have : (i : ℚ) ≤ ((9223372036854775807 : ℤ) : ℚ) := by exact_mod_cast h1
  norm_num at this
  linarith

theorem one_le_roundToGrid32 {q : ℚ} (h : 1 ≤ q) : 1 ≤ roundToGrid32 q := by
  have := roundToGrid32_mono (by norm_num : (0 : ℚ) ≤ 1) h
  rwa [roundToGrid32_one] at this

/-- The quotient `float32(e) / float32(d)` for `0 ≤ e ≤ d`, `0 < d`. -/
theorem div_ofInt64_eq {e d : ℤ} (he : 0 ≤ e) (hed : e ≤ d) (hd : 0 < d) (hmax : d ≤ maxInt64) :
    FloatVal.div (FloatVal.ofInt64 e) (FloatVal.ofInt64 d)
        = .fin (roundToGrid32 (roundToGrid32 (e : ℚ) / roundToGrid32 (d : ℚ))) ∧
      0 ≤ roundToGrid32 (roundToGrid32 (e : ℚ) / roundToGrid32 (d : ℚ)) ∧
      roundToGrid32 (roundToGrid32 (e : ℚ) / roundToGrid32 (d : ℚ)) ≤ 1 := by
  have he' : (0 : ℚ) ≤ e := by exact_mod_cast he
  have hed' : (e : ℚ) ≤ d := by exact_mod_cast hed
  have hd' : (1 : ℚ) ≤ d := by exact_mod_cast hd
  have hD := one_le_roundToGrid32 hd'
  have hE0 := roundToGrid32_nonneg he'
  have hED := roundToGrid32_mono he' hed'
  have hq0 : 0 ≤ roundToGrid32 (e : ℚ) / roundToGrid32 (d : ℚ) := div_nonneg hE0 (by linarith)
  have hq1 : roundToGrid32 (e : ℚ) / roundToGrid32 (d : ℚ) ≤ 1 := by
    rw [div_le_one (by linarith)]; exact hED
  have hr1 := roundToGrid32_mono hq0 hq1
  rw [roundToGrid32_one] at hr1
  refine ⟨?_, roundToGrid32_nonneg hq0, hr1⟩
  rw [ofInt64_of_nonneg he (by omega), ofInt64_of_nonneg hd.le hmax]
  simp only [FloatVal.div]
  rw [if_neg (by linarith)]
  exact toFloat32_of_le hq0 (by linarith)


/-- Accuracy of a quotient computed from rounded operands and rounded once more. -/
theorem quotient_err_aux {E D Eh Dh t Q u : ℚ} (hu0 : 0 ≤ u) (hu : u ≤ 1 / 4)
    (hE : 0 ≤ E) (hED : E ≤ D) (hD : 0 < D)
    (hEh : |Eh - E| ≤ E * u) (hDh : |Dh - D| ≤ D * u) (ht : t * Dh = Eh)
    (hQ : |Q - t| ≤ u) : |Q - E / D| ≤ 4 * u := by
  have hx1 : E / D ≤ 1 := (div_le_one hD).2 hED
  have hx0 : 0 ≤ E / D := div_nonneg hE hD.le
  have hxD : E / D * D = E := div_mul_cancel₀ E hD.ne.symm
  rw [abs_le] at hEh hDh hQ
  have hDhpos : D * (1 - u) ≤ Dh := by linarith
  have hDh0 : 0 < Dh := lt_of_lt_of_le (mul_pos hD (by linarith)) hDhpos
  have hkey : (t - E / D) * Dh = (Eh - E) + E / D * (D - Dh) := by
    rw [sub_mul, ht]; nlinarith
  have hDu : 0 ≤ D * u := mul_nonneg hD.le hu0
  have hb1 : E / D * (D - Dh) ≤ D * u :=
    calc E / D * (D - Dh) ≤ E / D * (D * u) := mul_le_mul_of_nonneg_left (by linarith) hx0
      _ ≤ 1 * (D * u) := mul_le_mul_of_nonneg_right hx1 hDu
      _ = D * u := one_mul _
  have hb2 : -(D * u) ≤ E / D * (D - Dh) := by
    have : E / D * (Dh - D) ≤ D * u :=
      calc E / D * (Dh - D) ≤ E / D * (D * u) := mul_le_mul_of_nonneg_left (by linarith) hx0
        _ ≤ 1 * (D * u) := mul_le_mul_of_nonneg_right hx1 hDu
        _ = D * u := one_mul _
    nlinarith
  have hEu : E * u ≤ D * u := mul_le_mul_of_nonneg_right hED hu0
  have hup : (t - E / D) * Dh ≤ 2 * (D * u) := by rw [hkey]; linarith
  have hlo : -(2 * (D * u)) ≤ (t - E / D) * Dh := by rw [hkey]; linarith
  have h3 : 2 * (D * u) ≤ 3 * u * Dh := by nlinarith
  have ht1 : t - E / D ≤ 3 * u := by
    by_contra hcon
    push_neg at hcon
    have := mul_lt_mul_of_pos_right hcon hDh0
    linarith
  have ht2 : -(3 * u) ≤ t - E / D := by
    by_contra hcon
    push_neg at hcon
    have := mul_lt_mul_of_pos_right hcon hDh0
    linarith
  rw [abs_le]
  constructor <;> linarith

/-- The `float32` quotient of two converted integers `0 ≤ e ≤ d`, `0 < d`, is within
`2 ^ (-22)` of the exact quotient. -/
theorem div_ofInt64_err {e d : ℤ} (he : 0 ≤ e) (hed : e ≤ d) (hd : 0 < d)
    (hmax : d ≤ maxInt64) :
    |roundToGrid32 (roundToGrid32 (e : ℚ) / roundToGrid32 (d : ℚ)) - (e : ℚ) / (d : ℚ)|
      ≤ 1 / 2 ^ 22 := by
  rcases eq_or_lt_of_le he with h0 | hpos
  · subst h0
    simp [roundToGrid32_zero]
  · have hE1 : (1 : ℚ) ≤ e := by exact_mod_cast hpos
    have hD1 : (1 : ℚ) ≤ d := by exact_mod_cast hd
    have hed' : (e : ℚ) ≤ d := by exact_mod_cast hed
    have hdmax : (d : ℚ) ≤ 9223372036854775808 := by
      unfold maxInt64 at hmax
      have : (d : ℚ) ≤ ((9223372036854775807 : ℤ) : ℚ) := by exact_mod_cast hmax
      norm_num at this
      linarith
    have hlogE : -126 ≤ Int.log 2 (e : ℚ) := by
      have := le_log2_of_zpow_le (q := (e : ℚ)) (n := 0) (by linarith) (by simpa using hE1)
      omega
    have hlogD : -126 ≤ Int.log 2 (d : ℚ) := by
      have := le_log2_of_zpow_le (q := (d : ℚ)) (n := 0) (by linarith) (by simpa using hD1)
      omega
    have hEh := roundToGrid32_rel_err (by linarith) hlogE
    have hDh := roundToGrid32_rel_err (by linarith) hlogD
    have hEh1 := one_le_roundToGrid32 hE1
    have hDh1 := one_le_roundToGrid32 hD1
    have hDhmax := roundToGrid32_mono (by linarith) hdmax
    rw [roundToGrid32_two_pow_63] at hDhmax
    have hEhDh := roundToGrid32_mono (by linarith : (0 : ℚ) ≤ e) hed'
    set Eh := roundToGrid32 (e : ℚ)
    set Dh := roundToGrid32 (d : ℚ)
    have ht0 : 0 < Eh / Dh := div_pos (by linarith) (by linarith)
    have ht1 : Eh / Dh ≤ 1 := (div_le_one (by linarith)).2 hEhDh
    have htlow : (2 : ℚ) ^ (-63 : ℤ) ≤ Eh / Dh := by
      rw [le_div_iff₀ (by linarith)]
      have : (2 : ℚ) ^ (-63 : ℤ) = 1 / 9223372036854775808 := by norm_num
      rw [this]
      calc 1 / 9223372036854775808 * Dh ≤ 1 / 9223372036854775808 * 9223372036854775808 :=
            mul_le_mul_of_nonneg_left hDhmax (by norm_num)
        _ = 1 := by norm_num
        _ ≤ Eh := hEh1
    have hlogt : -126 ≤ Int.log 2 (Eh / Dh) := by
      have := le_log2_of_zpow_le ht0 htlow
      omega
    have hQ := roundToGrid32_rel_err ht0 hlogt
    have hQ' : |roundToGrid32 (Eh / Dh) - Eh / Dh| ≤ 1 / 2 ^ 24 :=
      hQ.trans (by
        calc Eh / Dh * (1 / 2 ^ 24) ≤ 1 * (1 / 2 ^ 24) :=
              mul_le_mul_of_nonneg_right ht1 (by norm_num)
          _ = 1 / 2 ^ 24 := one_mul _)
    have := quotient_err_aux (u := 1 / 2 ^ 24) (by norm_num) (by norm_num)
      (by linarith : (0 : ℚ) ≤ e) hed' (by linarith) hEh hDh
      (div_mul_cancel₀ Eh (by linarith : Dh ≠ 0)) hQ'
    calc _ ≤ 4 * (1 / 2 ^ 24 : ℚ) := this
      _ = 1 / 2 ^ 22 := by norm_num

/-- A value of the binary32 grid below the overflow threshold converts to itself. -/
theorem toFloat32_exact (m k : ℤ) (hm : |m| < 2 ^ 24) (hk : -149 ≤ k)
    (hb : |(m : ℚ) * 2 ^ k| < 2 ^ 128) :
    toFloat32 ((m : ℚ) * 2 ^ k) = .fin ((m : ℚ) * 2 ^ k) := by
  unfold toFloat32
  rw [roundToGrid32_exact m k hm hk, if_neg (not_le.2 hb)]

theorem div_ofInt64_self {d : ℤ} (hd : 0 < d) (hmax : d ≤ maxInt64) :
    FloatVal.div (FloatVal.ofInt64 d) (FloatVal.ofInt64 d) = .fin 1 := by
  have hD := one_le_roundToGrid32 (by exact_mod_cast hd : (1 : ℚ) ≤ d)
  rw [(div_ofInt64_eq hd.le le_rfl hd hmax).1, div_self (by linarith), roundToGrid32_one]

theorem ofInt64_zero : FloatVal.ofInt64 0 = .fin 0 := by
  simp [FloatVal.ofInt64, toFloat32_zero]

theorem div_zero_ofInt64 {d : ℤ} (hd : 0 < d) :
    FloatVal.div (.fin 0) (FloatVal.ofInt64 d) = .fin 0 := by
  have hD := one_le_roundToGrid32 (by exact_mod_cast hd : (1 : ℚ) ≤ d)
  unfold FloatVal.ofInt64 toFloat32
  split_ifs
  · simp [FloatVal.div]
  · simp only [FloatVal.div]
    rw [if_neg (by linarith), zero_div, toFloat32_zero]

/-! ## Lemmas on the progress query -/

theorem Time.Sub_eq {t u : Int} (h : isInt64 (t - u)) : Time.Sub t u = t - u := by
  unfold isInt64 at h
  unfold Time.Sub
  rw [if_neg (by omega), if_neg (by omega)]

theorem progress_of_after (a : animation) (gtx : Context)
    (h : a.start + a.duration < gtx.Now) :
    a.progress gtx = ((false, .fin 0), gtx.Ops) := by
  simp [animation.progress, Time.After, Time.Add, h]

theorem progress_of_not_after (a : animation) (gtx : Context)
    (h : gtx.Now ≤ a.start + a.duration) :
    a.progress gtx =
      ((true, FloatVal.div (FloatVal.ofInt64 (Time.Sub gtx.Now a.start))
          (FloatVal.ofInt64 a.duration)), gtx.Ops ++ [⟨none⟩]) := by
  simp [animation.progress, Time.After, Time.Add, not_lt.2 h]

/-! ## Lemmas on the click step -/

theorem wrapInt64_of_isInt64 {x : Int} (h : isInt64 x) : wrapInt64 x = x := by
  unfold isInt64 minInt64 maxInt64 at h
  unfold wrapInt64
  omega

theorem tdiv_eq_specTrunc (x : ℚ) : x.num.tdiv x.den = specTrunc x := by
  unfold specTrunc
  split_ifs with h
  · rw [Rat.floor_def, Int.tdiv_eq_ediv (Rat.num_nonneg.2 h) (Int.natCast_nonneg _)]
  · have hneg : 0 ≤ (-x).num := Rat.num_nonneg.2 (by linarith)
    have h1 : ⌈x⌉ = -⌊-x⌋ := by rw [Int.floor_neg, neg_neg]
    rw [h1, Rat.floor_def, ← Int.tdiv_eq_ediv hneg (Int.natCast_nonneg _), Rat.neg_den,
      Rat.neg_num, Int.neg_tdiv, neg_neg]

theorem specTrunc_eq_zero {x : ℚ} (h : |x| < 1) : specTrunc x = 0 := by
  rw [abs_lt] at h
  unfold specTrunc
  split_ifs with h0
  · rw [Int.floor_eq_iff]; constructor <;> norm_num <;> linarith
  · rw [Int.ceil_eq_iff]; constructor <;> norm_num <;> linarith

/-- The duration a start click derives from a finite input whose whole seconds, in
nanoseconds, fit `int64`. -/
theorem requestedDuration_fin (impl : Int) (x : ℚ) (h : isInt64 (specTrunc x * Second)) :
    requestedDuration impl (.fin x) = specTrunc x * Second := by
  have hn : isInt64 (specTrunc x) := by
    unfold isInt64 minInt64 maxInt64 Second at *
    omega
  unfold requestedDuration truncToInt64
  simp only [tdiv_eq_specTrunc, if_pos hn]
  exact wrapInt64_of_isInt64 h

theorem drawFrame_boiling (impl : Int) (anim : animation) (ev : FrameEvent) :
    (drawFrame impl anim ev).boiling = (anim.progress ⟨ev.Now, []⟩).1.1 ∧
    (drawFrame impl anim ev).progress = (anim.progress ⟨ev.Now, []⟩).1.2 := by
  unfold drawFrame
  simp only
  split_ifs <;> exact ⟨rfl, rfl⟩

theorem drawFrame_click_active (impl : Int) (anim : animation) (ev : FrameEvent)
    (hclick : ev.clicked = true) (h : ev.Now ≤ anim.start + anim.duration) :
    (drawFrame impl anim ev).anim = ⟨anim.start, 0⟩ := by
  unfold drawFrame
  simp only [hclick, if_true, progress_of_not_after anim ⟨ev.Now, []⟩ h]
  rfl

theorem drawFrame_click_inactive (impl : Int) (anim : animation) (ev : FrameEvent)
    (hclick : ev.clicked = true) (h : anim.start + anim.duration < ev.Now) :
    (drawFrame impl anim ev).anim = ⟨ev.Now, requestedDuration impl ev.parsed.value⟩ := by
  unfold drawFrame
  simp only [hclick, if_true, progress_of_after anim ⟨ev.Now, []⟩ h]
  rfl

/-- When frame times increase strictly, the start of the animation stays strictly
before the time of every frame: a click sets it to the time of the current frame. -/
theorem drawFrame_start_lt_next (impl : Int) (anim : animation) (ev next : FrameEvent)
    (h : anim.start < ev.Now) (hnext : ev.Now < next.Now) :
    (drawFrame impl anim ev).anim.start < next.Now := by
  unfold drawFrame
  simp only [animation.animate, animation.stop]
  split_ifs <;> simp only <;> omega

/-- The label "Finished" is the one drawn at the exact end of a countdown, where
`progress` still reports `animating = true` with the fraction 1; strictly later the
label is "Start". -/
theorem buttonText_at_end (impl : Int) (anim : animation) (ev : FrameEvent)
    (hd : 0 < anim.duration) (hmax : anim.duration ≤ maxInt64) :
    (ev.Now = anim.start + anim.duration →
      buttonText (drawFrame impl anim ev).boiling (drawFrame impl anim ev).progress = "Finished") ∧
    (anim.start + anim.duration < ev.Now →
      buttonText (drawFrame impl anim ev).boiling (drawFrame impl anim ev).progress = "Start") := by
  obtain ⟨hb, hp⟩ := drawFrame_boiling impl anim ev
  constructor
  · intro h
    have hsub : Time.Sub ev.Now anim.start = anim.duration := by
      rw [Time.Sub_eq] <;> rw [h] <;> simp only [add_sub_cancel_left]
      unfold isInt64 minInt64; omega
    rw [hb, hp, progress_of_not_after anim ⟨ev.Now, []⟩ h.le]
    simp only [hsub]
    rw [div_ofInt64_self hd hmax]
    simp [buttonText, FloatVal.ltOne, FloatVal.geOne]
  · intro h
    rw [hb, hp, progress_of_after anim ⟨ev.Now, []⟩ h]
    simp [buttonText, FloatVal.ltOne, FloatVal.geOne]

/-! ## Properties of the countdown -/

/-- C1: for a timer with `0 < duration` (an `int64`) queried at `startTime ≤ now <
startTime + duration`, `progress` reports `animating = true` and the fraction
`float32(now - startTime) / float32(duration)`: a finite `float32` within `2 ^ (-22)` of
the exact quotient `(now - startTime) / duration`, and equal to it whenever the two
operands and the quotient are `float32` values. -/
theorem progress_running (a : animation) (gtx : Context)
    (hd : 0 < a.duration) (hmax : a.duration ≤ maxInt64)
    (h1 : a.start ≤ gtx.Now) (h2 : gtx.Now < a.start + a.duration) :
    (a.progress gtx).1.1 = true ∧
    (a.progress gtx).1.2 =
      FloatVal.div (FloatVal.ofInt64 (gtx.Now - a.start)) (FloatVal.ofInt64 a.duration) ∧
    ∃ q : ℚ, (a.progress gtx).1.2 = .fin q ∧
      |q - ((gtx.Now - a.start : ℤ) : ℚ) / (a.duration : ℚ)| ≤ 1 / 2 ^ 22 ∧
      (roundToGrid32 ((gtx.Now - a.start : ℤ) : ℚ) = ((gtx.Now - a.start : ℤ) : ℚ) →
        roundToGrid32 (a.duration : ℚ) = (a.duration : ℚ) →
        roundToGrid32 (((gtx.Now - a.start : ℤ) : ℚ) / (a.duration : ℚ))
          = ((gtx.Now - a.start : ℤ) : ℚ) / (a.duration : ℚ) →
        q = ((gtx.Now - a.start : ℤ) : ℚ) / (a.duration : ℚ)) := by
  have hsub : Time.Sub gtx.Now a.start = gtx.Now - a.start :=
    Time.Sub_eq (by unfold isInt64 minInt64; unfold maxInt64 at *; omega)
  have he : 0 ≤ gtx.Now - a.start := by omega
  have hed : gtx.Now - a.start ≤ a.duration := by omega
  obtain ⟨hdiv, -, -⟩ := div_ofInt64_eq he hed hd hmax
  rw [progress_of_not_after a gtx (by omega), hsub]
  refine ⟨rfl, rfl, _, hdiv, div_ofInt64_err he hed hd hmax, ?_⟩
  intro hE hD hQ
  rw [hE, hD, hQ]

/-- C1, the scenario of the specification: started at 0 s for 10 s, the timer reports
`(true, 0.5)` at 5 s. -/
theorem progress_running_witness :
    (animation.progress ⟨0, 10 * Second⟩ ⟨5 * Second, []⟩).1 = (true, .fin (1 / 2)) := by
  obtain ⟨hb, -, q, hq, -, hexact⟩ :=
    progress_running ⟨0, 10 * Second⟩ ⟨5 * Second, []⟩
      (by decide) (by decide) (by decide) (by decide)
  have hE : roundToGrid32 (5000000000 : ℚ) = 5000000000 := by
    have h := roundToGrid32_exact 9765625 9 (by norm_num) (by norm_num)
    norm_num at h
    exact h
  have hD : roundToGrid32 (10000000000 : ℚ) = 10000000000 := by
    have h := roundToGrid32_exact 9765625 10 (by norm_num) (by norm_num)
    norm_num at h
    exact h
  have hQ : roundToGrid32 (1 / 2 : ℚ) = 1 / 2 := by
    have h := roundToGrid32_exact 1 (-1) (by norm_num) (by norm_num)
    norm_num at h
    simpa using h
  have hq2 : q = 1 / 2 := by
    have := hexact (by norm_num [Second]; exact hE) (by norm_num [Second]; exact hD)
      (by norm_num [Second]; simpa using hQ)
    rw [this]; norm_num [Second]
  rw [Prod.ext_iff]
  exact ⟨hb, by rw [hq, hq2]⟩


/-- C2 (counterexample): a timer started at 0 s for 10 s and queried at exactly 10 s
satisfies the hypotheses of the claim, and `progress` returns `(true, 1)`, not
`(false, 0)`. -/
theorem progress_at_end_counterexample :
    (0 : Int) < 10 * Second ∧ (0 : Int) + 10 * Second ≤ 10 * Second ∧
    (animation.progress ⟨0, 10 * Second⟩ ⟨10 * Second, []⟩).1 = (true, .fin 1) ∧
    (animation.progress ⟨0, 10 * Second⟩ ⟨10 * Second, []⟩).1 ≠ (false, .fin 0) := by
  have h : (animation.progress ⟨0, 10 * Second⟩ ⟨10 * Second, []⟩).1 = (true, .fin 1) := by
    rw [progress_of_not_after _ _ (by decide), Time.Sub_eq (by decide)]
    simp only [sub_zero]
    rw [div_ofInt64_self (by decide) (by decide)]
  refine ⟨by decide, by decide, h, ?_⟩
  rw [h]
  simp

/-- C2 (amended): for a timer with `0 < duration`, `progress` returns `(false, 0)` at
every `now` strictly after `startTime + duration`, and `(true, 1)` at the exact instant
`now = startTime + duration`. -/
theorem progress_finished (a : animation) (ops : List InvalidateOp)
    (hd : 0 < a.duration) (hmax : a.duration ≤ maxInt64) :
    (∀ now : Int, a.start + a.duration < now →
      (a.progress ⟨now, ops⟩).1 = (false, .fin 0)) ∧
    (a.progress ⟨a.start + a.duration, ops⟩).1 = (true, .fin 1) := by
  constructor
  · intro now h
    rw [progress_of_after a ⟨now, ops⟩ h]
  · rw [progress_of_not_after a ⟨a.start + a.duration, ops⟩ le_rfl]
    have : Time.Sub (a.start + a.duration) a.start = a.duration := by
      rw [Time.Sub_eq] <;> simp only [add_sub_cancel_left]
      unfold isInt64 minInt64; omega
    simp only [this]
    rw [div_ofInt64_self hd hmax]

/-- C2 (amended), at the scenario of the specification: `(false, 0)` one nanosecond
after the end of a 10 s countdown, `(true, 1)` at its end. -/
theorem progress_finished_witness :
    (animation.progress ⟨0, 10 * Second⟩ ⟨10 * Second + 1, []⟩).1 = (false, .fin 0) ∧
    (animation.progress ⟨0, 10 * Second⟩ ⟨0 + 10 * Second, []⟩).1 = (true, .fin 1) :=
  ⟨(progress_finished ⟨0, 10 * Second⟩ [] (by decide) (by decide)).1 _ (by decide),
   (progress_finished ⟨0, 10 * Second⟩ [] (by decide) (by decide)).2⟩

/-- C3 (counterexample): with `duration = 0` and `now = startTime` (both 5 s) `progress`
returns `(true, NaN)`, the quotient of zero by zero, not `(false, 0)`. -/
theorem progress_zero_duration_counterexample :
    (animation.progress ⟨5 * Second, 0⟩ ⟨5 * Second, []⟩).1 = (true, .nan) ∧
    (animation.progress ⟨5 * Second, 0⟩ ⟨5 * Second, []⟩).1 ≠ (false, .fin 0) := by
  have h : (animation.progress ⟨5 * Second, 0⟩ ⟨5 * Second, []⟩).1 = (true, .nan) := by
    rw [progress_of_not_after _ _ (by decide), Time.Sub_eq (by decide)]
    simp [ofInt64_zero, FloatVal.div]
  refine ⟨h, ?_⟩
  rw [h]
  simp

/-- C3 (amended): a timer whose duration is 0 reports `(false, 0)` at every `now`
strictly after its `startTime`. -/
theorem progress_zero_duration (a : animation) (gtx : Context)
    (hd : a.duration = 0) (h : a.start < gtx.Now) :
    (a.progress gtx).1 = (false, .fin 0) := by
  rw [progress_of_after a gtx (by omega)]

/-- C3 (amended), at a concrete input: duration 0, started at 5 s, queried at 6 s. -/
theorem progress_zero_duration_witness :
    (animation.progress ⟨5 * Second, 0⟩ ⟨6 * Second, []⟩).1 = (false, .fin 0) :=
  progress_zero_duration ⟨5 * Second, 0⟩ ⟨6 * Second, []⟩ rfl (by decide)

/-- C4 (counterexample): `animate(now0, 0)` followed by `progress(now0)` gives
`(true, NaN)`, and `animate(now0, -1s)` followed by `progress(now0)` gives `(false, 0)`;
neither is `(true, 0)`. -/
theorem animate_then_progress_counterexample :
    (((⟨0, 0⟩ : animation).animate ⟨5 * Second, []⟩ 0).1.progress ⟨5 * Second, []⟩).1
      = (true, .nan) ∧
    (((⟨0, 0⟩ : animation).animate ⟨5 * Second, []⟩ 0).1.progress ⟨5 * Second, []⟩).1
      ≠ (true, .fin 0) ∧
    (((⟨0, 0⟩ : animation).animate ⟨5 * Second, []⟩ (-Second)).1.progress ⟨5 * Second, []⟩).1
      = (false, .fin 0) ∧
    (((⟨0, 0⟩ : animation).animate ⟨5 * Second, []⟩ (-Second)).1.progress ⟨5 * Second, []⟩).1
      ≠ (true, .fin 0) := by
  have h1 : (((⟨0, 0⟩ : animation).animate ⟨5 * Second, []⟩ 0).1.progress
      ⟨5 * Second, []⟩).1 = (true, .nan) := by
    simp only [animation.animate]
    rw [progress_of_not_after _ _ (by decide), Time.Sub_eq (by decide)]
    simp [ofInt64_zero, FloatVal.div]
  have h2 : (((⟨0, 0⟩ : animation).animate ⟨5 * Second, []⟩ (-Second)).1.progress
      ⟨5 * Second, []⟩).1 = (false, .fin 0) := by
    simp only [animation.animate]
    rw [progress_of_after _ _ (by decide)]
  refine ⟨h1, ?_, h2, ?_⟩
  · rw [h1]; simp
  · rw [h2]; simp

/-- C4 (amended): for every prior timer state, every time `now0` and every requested
duration `d > 0`, `animate(now0, d)` followed by `progress(now0)` yields `(true, 0)`. -/
theorem animate_then_progress (a : animation) (gtx : Context) (d : Int)
    (ops : List InvalidateOp) (hd : 0 < d) :
    ((a.animate gtx d).1.progress ⟨gtx.Now, ops⟩).1 = (true, .fin 0) := by
  simp only [animation.animate]
  rw [progress_of_not_after _ _ (by simp only; omega)]
  have : Time.Sub gtx.Now gtx.Now = 0 := by
    rw [Time.Sub_eq] <;> simp only [sub_self]
    decide
  simp only [this, ofInt64_zero]
  rw [div_zero_ofInt64 hd]

/-- C4 (amended), at a concrete input: a 3 s countdown started at 5 s, queried at 5 s. -/
theorem animate_then_progress_witness :
    (((⟨0, 0⟩ : animation).animate ⟨5 * Second, []⟩ (3 * Second)).1.progress
      ⟨5 * Second, []⟩).1 = (true, .fin 0) :=
  animate_then_progress ⟨0, 0⟩ ⟨5 * Second, []⟩ (3 * Second) [] (by decide)

/-- C5 (counterexample): the timer started at 0 s for 10 s is active at `t = 0`; after
`stop()`, `progress` at `now = 0 ≥ t` returns `(true, NaN)`, not `(false, 0)`. -/
theorem stop_then_progress_counterexample :
    (animation.progress ⟨0, 10 * Second⟩ ⟨0, []⟩).1.1 = true ∧ (0 : Int) ≤ 0 ∧
    ((animation.stop ⟨0, 10 * Second⟩).progress ⟨0, []⟩).1 = (true, .nan) ∧
    ((animation.stop ⟨0, 10 * Second⟩).progress ⟨0, []⟩).1 ≠ (false, .fin 0) := by
  have h : ((animation.stop ⟨0, 10 * Second⟩).progress ⟨0, []⟩).1 = (true, .nan) := by
    simp only [animation.stop]
    rw [progress_of_not_after _ _ (by decide), Time.Sub_eq (by decide)]
    simp [ofInt64_zero, FloatVal.div]
  refine ⟨?_, le_rfl, h, ?_⟩
  · rw [progress_of_not_after _ _ (by decide)]
  · rw [h]; simp

/-- C5 (amended): for every timer active at some time `t`, `stop()` followed by
`progress(now)` yields `(false, 0)` for every `now ≥ t` that is strictly after
`startTime`. -/
theorem stop_then_progress (a : animation) (t now : Int) (ops ops' : List InvalidateOp)
    (_hactive : (a.progress ⟨t, ops⟩).1.1 = true) (_ht : t ≤ now) (hnow : a.start < now) :
    (a.stop.progress ⟨now, ops'⟩).1 = (false, .fin 0) := by
  rw [progress_of_after _ _ (by simp only [animation.stop]; omega)]

/-- C5 (amended), at a concrete input: a 10 s countdown started at 0 s, active at 4 s,
stopped, queried at 5 s. -/
theorem stop_then_progress_witness :
    (animation.progress ⟨0, 10 * Second⟩ ⟨4 * Second, []⟩).1.1 = true ∧
    ((animation.stop ⟨0, 10 * Second⟩).progress ⟨5 * Second, []⟩).1 = (false, .fin 0) :=
  ⟨by rw [progress_of_not_after _ _ (by decide)],
   stop_then_progress ⟨0, 10 * Second⟩ (4 * Second) (5 * Second) [] []
    (by rw [progress_of_not_after _ _ (by decide)]) (by decide) (by decide)⟩

/-- C6 (counterexample): after a click at 5 s with unparseable text the timer is
`(startTime = 5 s, duration = 0)`, and a next frame carrying the same time 5 s reports
`boiling = true` with the fraction NaN, not `(false, 0)`. A text that is well formed but
out of range is rejected by the parse with an infinity as value; where the conversion of
an infinity to `int64` saturates, the derived duration is `-1000000000` ns, not 0. -/
theorem click_with_invalid_text_counterexample :
    (animation.progress ⟨0, 0⟩ ⟨5 * Second, []⟩).1.1 = false ∧
    (drawFrame 0 ⟨0, 0⟩ ⟨5 * Second, true, .errSyntax⟩).anim = ⟨5 * Second, 0⟩ ∧
    (drawFrame 0 (drawFrame 0 ⟨0, 0⟩ ⟨5 * Second, true, .errSyntax⟩).anim
      ⟨5 * Second, false, .errSyntax⟩).boiling = true ∧
    (drawFrame 0 (drawFrame 0 ⟨0, 0⟩ ⟨5 * Second, true, .errSyntax⟩).anim
      ⟨5 * Second, false, .errSyntax⟩).progress = .nan ∧
    requestedDuration maxInt64 (ParseOutcome.errRange false).value = -1000000000 ∧
    requestedDuration maxInt64 (ParseOutcome.errRange false).value ≠ 0 := by
  have hreq : requestedDuration 0 ParseOutcome.errSyntax.value = 0 := by
    have := requestedDuration_fin 0 0 (by rw [specTrunc_eq_zero (by norm_num)]; decide)
    rw [specTrunc_eq_zero (by norm_num)] at this
    simpa [ParseOutcome.value] using this
  have hanim : (drawFrame 0 ⟨0, 0⟩ ⟨5 * Second, true, .errSyntax⟩).anim = ⟨5 * Second, 0⟩ := by
    rw [drawFrame_click_inactive 0 ⟨0, 0⟩ ⟨5 * Second, true, .errSyntax⟩ rfl (by decide), hreq]
  have hrange : requestedDuration maxInt64 (ParseOutcome.errRange false).value
      = -1000000000 := by
    simp only [ParseOutcome.value, requestedDuration, truncToInt64]
    decide
  obtain ⟨hb, hp⟩ := drawFrame_boiling 0
    (drawFrame 0 ⟨0, 0⟩ ⟨5 * Second, true, .errSyntax⟩).anim ⟨5 * Second, false, .errSyntax⟩
  have hq : (animation.progress ⟨5 * Second, 0⟩ ⟨5 * Second, []⟩).1 = (true, .nan) := by
    rw [progress_of_not_after _ _ (by decide), Time.Sub_eq (by decide)]
    simp [ofInt64_zero, FloatVal.div]
  refine ⟨by rw [progress_of_after _ _ (by decide)], hanim, ?_, ?_, hrange, ?_⟩
  · rw [hb, hanim, hq]
  · rw [hp, hanim, hq]
  · rw [hrange]; decide

/-- C6 (amended): when the text of the input box is not syntactically a number (a
syntax error of the parse), a click in a frame at `now` in which the timer is not
boiling derives the duration 0 and starts the timer with it (`startTime = now`,
`duration = 0`), and the progress query of the next frame, at any time strictly after
`now`, reports `(false, 0)`. -/
theorem click_with_invalid_text (impl : Int) (anim : animation) (now : Int)
    (next : FrameEvent) (hidle : (anim.progress ⟨now, []⟩).1.1 = false)
    (hlater : now < next.Now) :
    requestedDuration impl ParseOutcome.errSyntax.value = 0 ∧
    (drawFrame impl anim ⟨now, true, .errSyntax⟩).anim = ⟨now, 0⟩ ∧
    (drawFrame impl (drawFrame impl anim ⟨now, true, .errSyntax⟩).anim next).boiling = false ∧
    (drawFrame impl (drawFrame impl anim ⟨now, true, .errSyntax⟩).anim next).progress = .fin 0 := by
  have hreq : requestedDuration impl ParseOutcome.errSyntax.value = 0 := by
    have := requestedDuration_fin impl 0 (by rw [specTrunc_eq_zero (by norm_num)]; decide)
    rw [specTrunc_eq_zero (by norm_num)] at this
    simpa [ParseOutcome.value] using this
  have hanim : (drawFrame impl anim ⟨now, true, .errSyntax⟩).anim = ⟨now, 0⟩ := by
    by_cases h : now ≤ anim.start + anim.duration
    · rw [progress_of_not_after anim ⟨now, []⟩ h] at hidle
      exact absurd hidle (by simp)
    · rw [drawFrame_click_inactive impl anim ⟨now, true, .errSyntax⟩ rfl (by simpa using h), hreq]
  refine ⟨hreq, hanim, ?_⟩
  obtain ⟨hb, hp⟩ := drawFrame_boiling impl (drawFrame impl anim ⟨now, true, .errSyntax⟩).anim next
  rw [hb, hp, hanim, progress_of_after ⟨now, 0⟩ ⟨next.Now, []⟩ (by simpa using hlater)]
  exact ⟨rfl, rfl⟩

/-- C6 (amended), at a concrete input: an idle timer, a click at 5 s with unparseable text, and
the next frame at 5.04 s. -/
theorem click_with_invalid_text_witness :
    (drawFrame 0 ⟨0, 0⟩ ⟨5 * Second, true, .errSyntax⟩).anim = ⟨5 * Second, 0⟩ ∧
    (drawFrame 0 (drawFrame 0 ⟨0, 0⟩ ⟨5 * Second, true, .errSyntax⟩).anim
      ⟨5040000000, false, .errSyntax⟩).boiling = false ∧
    (drawFrame 0 (drawFrame 0 ⟨0, 0⟩ ⟨5 * Second, true, .errSyntax⟩).anim
      ⟨5040000000, false, .errSyntax⟩).progress = .fin 0 :=
  (click_with_invalid_text 0 ⟨0, 0⟩ (5 * Second) ⟨5040000000, false, .errSyntax⟩
    (by rw [progress_of_after _ _ (by decide)]) (by decide)).2

/-- C7 (counterexample): a click at exactly `startTime + duration` (10 s into a 10 s
countdown, a Finished state of the claim) stops the timer instead of restarting it, and
a click on an Idle timer at `now = startTime` leaves it idle instead of starting the
requested 3 s countdown. -/
theorem click_transitions_counterexample :
    (drawFrame 0 ⟨0, 10 * Second⟩ ⟨10 * Second, true, .ok (.fin 3)⟩).anim = ⟨0, 0⟩ ∧
    (drawFrame 0 ⟨0, 10 * Second⟩ ⟨10 * Second, true, .ok (.fin 3)⟩).anim
      ≠ ⟨10 * Second, 3 * Second⟩ ∧
    (drawFrame 0 ⟨5 * Second, 0⟩ ⟨5 * Second, true, .ok (.fin 3)⟩).anim = ⟨5 * Second, 0⟩ ∧
    (drawFrame 0 ⟨5 * Second, 0⟩ ⟨5 * Second, true, .ok (.fin 3)⟩).anim
      ≠ ⟨5 * Second, 3 * Second⟩ ∧
    requestedDuration 0 (ParseOutcome.ok (.fin 3)).value = 3 * Second := by
  have h1 := drawFrame_click_active 0 ⟨0, 10 * Second⟩ ⟨10 * Second, true, .ok (.fin 3)⟩ rfl
    (by decide)
  have h2 := drawFrame_click_active 0 ⟨5 * Second, 0⟩ ⟨5 * Second, true, .ok (.fin 3)⟩ rfl
    (by decide)
  have h3 : specTrunc 3 = 3 := by
    unfold specTrunc; norm_num
  refine ⟨h1, ?_, h2, ?_, ?_⟩
  · rw [h1]; decide
  · rw [h2]; decide
  · have := requestedDuration_fin 0 3 (by rw [h3]; decide)
    rw [h3] at this
    exact this

/-- C7 (amended): on a click, a Running timer (`0 < duration`, `startTime ≤ now <
startTime + duration`) gets `duration = 0` with `startTime` unchanged; an Idle timer
(`duration = 0`) clicked at `now > startTime`, and a Finished timer (`0 < duration`)
clicked at `now > startTime + duration`, are treated as not boiling and get
`startTime = now` and the duration derived from the input box, which is `n` seconds for
an input of `n` whole seconds with `n * 10^9` in the `int64` range. -/
theorem click_transitions (impl : Int) (anim : animation) (ev : FrameEvent)
    (hclick : ev.clicked = true) :
    (0 < anim.duration → anim.start ≤ ev.Now → ev.Now < anim.start + anim.duration →
      (drawFrame impl anim ev).boiling = true ∧
      (drawFrame impl anim ev).anim = ⟨anim.start, 0⟩) ∧
    (anim.duration = 0 → anim.start < ev.Now →
      (drawFrame impl anim ev).boiling = false ∧
      (drawFrame impl anim ev).anim = ⟨ev.Now, requestedDuration impl ev.parsed.value⟩) ∧
    (0 < anim.duration → anim.start + anim.duration < ev.Now →
      (drawFrame impl anim ev).boiling = false ∧
      (drawFrame impl anim ev).anim = ⟨ev.Now, requestedDuration impl ev.parsed.value⟩) ∧
    (∀ n : ℤ, isInt64 (n * Second) → ev.parsed = .ok (.fin n) →
      requestedDuration impl ev.parsed.value = n * Second) := by
  refine ⟨?_, ?_, ?_, ?_⟩
  · intro _ _ h
    refine ⟨?_, drawFrame_click_active impl anim ev hclick h.le⟩
    rw [(drawFrame_boiling impl anim ev).1, progress_of_not_after anim ⟨ev.Now, []⟩ h.le]
  · intro hd h
    have h' : anim.start + anim.duration < ev.Now := by omega
    refine ⟨?_, drawFrame_click_inactive impl anim ev hclick h'⟩
    rw [(drawFrame_boiling impl anim ev).1, progress_of_after anim ⟨ev.Now, []⟩ h']
  · intro _ h
    refine ⟨?_, drawFrame_click_inactive impl anim ev hclick h⟩
    rw [(drawFrame_boiling impl anim ev).1, progress_of_after anim ⟨ev.Now, []⟩ h]
  · intro n hn hp
    have hT : specTrunc (n : ℚ) = n := by
      unfold specTrunc; split_ifs <;> simp
    have := requestedDuration_fin impl (n : ℚ) (by rw [hT]; exact hn)
    rw [hT] at this
    rw [hp]
    exact this

/-- C7 (amended), at concrete inputs: a click 4 s into a 10 s countdown stops it; a
click at 12 s, after its end, starts the requested 3 s countdown. -/
theorem click_transitions_witness :
    (drawFrame 0 ⟨0, 10 * Second⟩ ⟨4 * Second, true, .ok (.fin 3)⟩).anim = ⟨0, 0⟩ ∧
    (drawFrame 0 ⟨0, 10 * Second⟩ ⟨12 * Second, true, .ok (.fin 3)⟩).anim
      = ⟨12 * Second, 3 * Second⟩ := by
  have h1 := click_transitions 0 ⟨0, 10 * Second⟩ ⟨4 * Second, true, .ok (.fin 3)⟩ rfl
  have h2 := click_transitions 0 ⟨0, 10 * Second⟩ ⟨12 * Second, true, .ok (.fin 3)⟩ rfl
  have h3 := h2.2.2.2 3 (by decide) (by simp)
  refine ⟨(h1.1 (by decide) (by decide) (by decide)).2, ?_⟩
  rw [(h2.2.2.1 (by decide) (by decide)).2, h3]

/-- C8 (counterexample): a timer started at 10 s for 5 s and queried at 0 s reports the
fraction `-2`, and a timer of duration 0 queried at its `startTime` reports NaN; neither
lies in the interval from 0 to 1. -/
theorem progress_fraction_counterexample :
    (animation.progress ⟨10 * Second, 5 * Second⟩ ⟨0, []⟩).1.2 = .fin (-2) ∧
    ¬ (animation.progress ⟨10 * Second, 5 * Second⟩ ⟨0, []⟩).1.2.inUnit ∧
    (animation.progress ⟨5 * Second, 0⟩ ⟨5 * Second, []⟩).1.2 = .nan ∧
    ¬ (animation.progress ⟨5 * Second, 0⟩ ⟨5 * Second, []⟩).1.2.inUnit := by
  have hE : FloatVal.ofInt64 (-10000000000) = .fin (-10000000000) := by
    have h := toFloat32_exact (-9765625) 10 (by norm_num) (by norm_num) (by norm_num)
    norm_num at h
    simpa [FloatVal.ofInt64] using h
  have hD : FloatVal.ofInt64 5000000000 = .fin 5000000000 := by
    have h := toFloat32_exact 9765625 9 (by norm_num) (by norm_num) (by norm_num)
    norm_num at h
    simpa [FloatVal.ofInt64] using h
  have hQ : toFloat32 (-2) = .fin (-2) := by
    have h := toFloat32_exact (-1) 1 (by norm_num) (by norm_num) (by norm_num)
    norm_num at h
    exact h
  have h1 : (animation.progress ⟨10 * Second, 5 * Second⟩ ⟨0, []⟩).1.2 = .fin (-2) := by
    rw [progress_of_not_after _ _ (by decide), Time.Sub_eq (by decide)]
    norm_num [Second]
    rw [hE, hD]
    simp only [FloatVal.div]
    norm_num
    exact hQ
  have h2 : (animation.progress ⟨5 * Second, 0⟩ ⟨5 * Second, []⟩).1.2 = .nan := by
    rw [progress_of_not_after _ _ (by decide), Time.Sub_eq (by decide)]
    simp [ofInt64_zero, FloatVal.div]
  refine ⟨h1, ?_, h2, ?_⟩
  · rw [h1]; simp only [FloatVal.inUnit]; norm_num
  · rw [h2]; simp [FloatVal.inUnit]

/-- C8 (amended): for every timer state (with an `int64` duration) and every query time
`now` at or after `startTime`, except `duration = 0` queried at `now = startTime`, the
fraction returned by `progress` lies in the closed interval from 0 to 1. -/
theorem progress_fraction_in_unit (a : animation) (gtx : Context)
    (hmax : a.duration ≤ maxInt64) (h1 : a.start ≤ gtx.Now)
    (h2 : a.duration ≠ 0 ∨ a.start < gtx.Now) :
    (a.progress gtx).1.2.inUnit := by
  by_cases h : a.start + a.duration < gtx.Now
  · rw [progress_of_after a gtx h]
    simp [FloatVal.inUnit]
  · have hle : gtx.Now ≤ a.start + a.duration := not_lt.1 h
    have hd : 0 < a.duration := by omega
    have hsub : Time.Sub gtx.Now a.start = gtx.Now - a.start :=
      Time.Sub_eq (by unfold isInt64 minInt64; unfold maxInt64 at *; omega)
    obtain ⟨hdiv, h0, h1'⟩ :=
      div_ofInt64_eq (e := gtx.Now - a.start) (by omega) (by omega) hd hmax
    rw [progress_of_not_after a gtx hle, hsub]
    simp only
    rw [hdiv]
    exact ⟨h0, h1'⟩

/-- C8 (amended), at a concrete input: a 10 s countdown started at 0 s, queried at 4 s. -/
theorem progress_fraction_in_unit_witness :
    (animation.progress ⟨0, 10 * Second⟩ ⟨4 * Second, []⟩).1.2.inUnit :=
  progress_fraction_in_unit ⟨0, 10 * Second⟩ ⟨4 * Second, []⟩ (by decide) (by decide)
    (Or.inl (by decide))

/-- C9: after `animate(now1, d)` the result of `progress` is the same whatever the
prior timer state was, and is that of the timer `(startTime = now1, duration = d)`; in
the scenario start(0, 3 s), stop() at 1 s, start(1 s, 3 s) the fraction at 2 s is the
`float32` nearest to one third, `11184811 / 2 ^ 25`. -/
theorem restart_forgets_history :
    (∀ (a₁ a₂ : animation) (now1 d : Int) (ops₁ ops₂ : List InvalidateOp) (gtx : Context),
      (a₁.animate ⟨now1, ops₁⟩ d).1.progress gtx = (a₂.animate ⟨now1, ops₂⟩ d).1.progress gtx ∧
      (a₁.animate ⟨now1, ops₁⟩ d).1.progress gtx = (animation.mk now1 d).progress gtx) ∧
    (((((⟨0, 0⟩ : animation).animate ⟨0, []⟩ (3 * Second)).1.stop.animate
        ⟨1 * Second, []⟩ (3 * Second)).1.progress ⟨2 * Second, []⟩).1
      = (true, .fin (11184811 / 33554432))) ∧
    |(11184811 / 33554432 : ℚ) - 1 / 3| < 1 / 10000000 := by
  refine ⟨fun _ _ _ _ _ _ _ => ⟨rfl, rfl⟩, ?_, by norm_num [abs_lt]⟩
  have hE : FloatVal.ofInt64 1000000000 = .fin 1000000000 := by
    have h := toFloat32_exact 1953125 9 (by norm_num) (by norm_num) (by norm_num)
    norm_num at h
    simpa [FloatVal.ofInt64] using h
  have hD : FloatVal.ofInt64 3000000000 = .fin 3000000000 := by
    have h := toFloat32_exact 5859375 9 (by norm_num) (by norm_num) (by norm_num)
    norm_num at h
    simpa [FloatVal.ofInt64] using h
  have hR : roundToGrid32 (1 / 3) = 11184811 / 33554432 := by
    rw [roundToGrid32_eq (-2) (by norm_num [abs_of_pos]) (by norm_num [abs_of_pos])
      (by norm_num)]
    have : roundHalfEven (1 / 3 / 2 ^ (-2 - 23 : ℤ)) = 11184811 := by
      unfold roundHalfEven
      norm_num
    rw [this]
    norm_num
  have hQ : toFloat32 (1 / 3) = .fin (11184811 / 33554432) := by
    unfold toFloat32
    rw [hR, if_neg (by norm_num [abs_of_pos])]
  simp only [animation.animate, animation.stop]
  rw [progress_of_not_after _ _ (by decide), Time.Sub_eq (by decide)]
  norm_num [Second]
  rw [hE, hD]
  simp only [FloatVal.div]
  norm_num
  exact hQ

/-- C10 (counterexample): the input `10000000000` (a `float32` value inside the `int64`
range) makes a start click store the duration `-8446744073709551616` ns, which is
neither `10000000000` seconds nor a multiple of one second. -/
theorem requestedDuration_counterexample :
    isInt64 (specTrunc 10000000000) ∧
    roundToGrid32 10000000000 = 10000000000 ∧
    (drawFrame 0 ⟨0, 0⟩ ⟨5 * Second, true, .ok (.fin 10000000000)⟩).anim.duration
      = -8446744073709551616 ∧
    (drawFrame 0 ⟨0, 0⟩ ⟨5 * Second, true, .ok (.fin 10000000000)⟩).anim.duration
      ≠ specTrunc 10000000000 * Second ∧
    ¬ Second ∣ (drawFrame 0 ⟨0, 0⟩ ⟨5 * Second, true, .ok (.fin 10000000000)⟩).anim.duration := by
  have hT : specTrunc 10000000000 = 10000000000 := by
    unfold specTrunc; norm_num
  have hG : roundToGrid32 10000000000 = 10000000000 := by
    have h := roundToGrid32_exact 9765625 10 (by norm_num) (by norm_num)
    norm_num at h
    exact h
  have hR : requestedDuration 0 (.fin 10000000000) = -8446744073709551616 := by
    unfold requestedDuration truncToInt64
    simp only [tdiv_eq_specTrunc, hT]
    rw [if_pos (by decide)]
    decide
  have hF : (drawFrame 0 ⟨0, 0⟩ ⟨5 * Second, true, .ok (.fin 10000000000)⟩).anim.duration
      = -8446744073709551616 := by
    rw [drawFrame_click_inactive 0 ⟨0, 0⟩ _ rfl (by decide)]
    exact hR
  refine ⟨by rw [hT]; decide, hG, hF, ?_, ?_⟩
  · rw [hF, hT]; decide
  · rw [hF]; decide

/-- C10 (amended): for every input that parses to a finite number `x` whose whole
seconds `trunc(x)`, in nanoseconds, fit `int64` (`|trunc(x)| ≤ 9223372036`), the
duration set by a start click is `trunc(x)` seconds, an integer multiple of one second,
and it is zero whenever `|x| < 1`. -/
theorem requestedDuration_whole_seconds (impl : Int) (anim : animation) (now : Int) (x : ℚ)
    (hidle : (anim.progress ⟨now, []⟩).1.1 = false)
    (h : isInt64 (specTrunc x * Second)) :
    (drawFrame impl anim ⟨now, true, .ok (.fin x)⟩).anim.duration = specTrunc x * Second ∧
    Second ∣ (drawFrame impl anim ⟨now, true, .ok (.fin x)⟩).anim.duration ∧
    (|x| < 1 → (drawFrame impl anim ⟨now, true, .ok (.fin x)⟩).anim.duration = 0) := by
  have hr := requestedDuration_fin impl x h
  have hF : (drawFrame impl anim ⟨now, true, .ok (.fin x)⟩).anim.duration
      = requestedDuration impl (.fin x) := by
    by_cases hn : now ≤ anim.start + anim.duration
    · rw [progress_of_not_after anim ⟨now, []⟩ hn] at hidle
      exact absurd hidle (by simp)
    · rw [drawFrame_click_inactive impl anim ⟨now, true, .ok (.fin x)⟩ rfl (by simpa using hn)]
      rfl
  rw [hF, hr]
  refine ⟨rfl, Dvd.intro_left _ rfl, ?_⟩
  intro hx
  rw [specTrunc_eq_zero hx, zero_mul]

/-- C10 (amended), at concrete inputs: on an idle timer clicked at 5 s, the input `2.5`
gives 2 s and the input `0.5` gives a zero duration. -/
theorem requestedDuration_whole_seconds_witness :
    (drawFrame 0 ⟨0, 0⟩ ⟨5 * Second, true, .ok (.fin (5 / 2))⟩).anim.duration = 2 * Second ∧
    (drawFrame 0 ⟨0, 0⟩ ⟨5 * Second, true, .ok (.fin (1 / 2))⟩).anim.duration = 0 := by
  have hidle : (animation.progress ⟨0, 0⟩ ⟨5 * Second, []⟩).1.1 = false := by
    rw [progress_of_after _ _ (by decide)]
  have hT : specTrunc (5 / 2) = 2 := by
    unfold specTrunc; norm_num
  have hT0 : specTrunc (1 / 2) = 0 := specTrunc_eq_zero (by norm_num [abs_lt])
  have h1 := (requestedDuration_whole_seconds 0 ⟨0, 0⟩ (5 * Second) (5 / 2) hidle
    (by rw [hT]; decide)).1
  have h2 := (requestedDuration_whole_seconds 0 ⟨0, 0⟩ (5 * Second) (1 / 2) hidle
    (by rw [hT0]; decide)).2.2 (by norm_num [abs_lt])
  rw [hT] at h1
  exact ⟨h1, h2⟩

end EggTimer
